import Mathlib

/-!
Verification of the DocSenseAI asynchronous job-execution and event-streaming
subsystem (backend/app/streaming/publisher.py, backend/app/api/chat.py,
backend/app/queue/worker.py, backend/app/langgraph/agent.py,
backend/app/pdf/processor.py) against its natural-language specification.

The Python source is shallowly embedded: every definition below is a direct
translation of the corresponding Python function; stateful Redis interaction
is made explicit as a buffer-state value plus a trace of primitive Redis
operations, and the subscriber's polling generator is a function of the
sequence of observations (pub/sub message, buffer snapshot, done flag,
elapsed wall-clock seconds) it makes on each loop iteration.
-/

namespace DocSense

/-! ## Data model (app/models/schemas.py) -/

/-- Citation (schemas.py).  `id` is the 1-indexed citation number. -/
structure Citation where
  id : Nat
  document_name : String
  page_number : Nat
  text_snippet : String
  start_char : Option Nat
  end_char : Option Nat
deriving DecidableEq, Repr

/-- InfoCardData (schemas.py). -/
structure InfoCardData where
  title : String
  content : String
  icon : Option String
deriving DecidableEq, Repr

/-- TableData (schemas.py). -/
structure TableData where
  headers : List String
  rows : List (List String)
  caption : Option String
deriving DecidableEq, Repr

inductive UIBlockType
  | info_card
  | table
  | chart
deriving DecidableEq, Repr

/-- The payload union of a UI block.  ChartData carries floating-point
values and is constructed nowhere on the verified code paths, so its
payload is not modelled. -/
inductive UIBlockData
  | infoCard (d : InfoCardData)
  | table (d : TableData)
  | chart
deriving DecidableEq, Repr

/-- UIBlock (schemas.py). -/
structure UIBlock where
  type : UIBlockType
  data : UIBlockData
deriving DecidableEq, Repr

inductive ToolType
  | search_documents
  | read_pdf
  | analyze_content
deriving DecidableEq, Repr

/-- The discriminated Event union (schemas.py): TextChunkEvent,
ToolCallStartEvent, ToolCallEndEvent, CitationEvent, UIBlockEvent,
ErrorEvent, DoneEvent.  Each constructor corresponds to one pydantic
model; the `event` discriminator field is the constructor tag. -/
inductive StreamEvent
  | textChunk (content : String)
  | toolCallStart (tool_type : ToolType) (tool_name description : String)
  | toolCallEnd (tool_type : ToolType) (tool_name : String)
      (success : Bool) (result_summary : Option String)
  | citationEv (citation : Citation)
  | uiBlockEv (block : UIBlock)
  | errorEv (message : String) (recoverable : Bool)
  | doneEv (total_tokens : Option Nat)
deriving DecidableEq, Repr

/-- The `event` discriminator string of an event
(`event_data.get("event")` on the decoded dict). -/
def eventName : StreamEvent → String
  | .textChunk _ => "text_chunk"
  | .toolCallStart _ _ _ => "tool_call_start"
  | .toolCallEnd _ _ _ _ => "tool_call_end"
  | .citationEv _ => "citation"
  | .uiBlockEv _ => "ui_block"
  | .errorEv _ _ => "error"
  | .doneEv _ => "done"

/-- `event.event == EventType.DONE` (publisher.py line 140,
publisher.py lines 251 and 291). -/
def eventIsDone : StreamEvent → Bool
  | .doneEv _ => true
  | _ => false

/-! ## Event buffer and publisher (publisher.py)

A buffered entry is the stored JSON string: `json.loads` of it either
succeeds, giving back the event, or raises `JSONDecodeError`; `none`
models an undecodable entry. -/

abbrev BufEntry := Option StreamEvent

/-- The per-job Redis state behind `JobEventBuffer`: the `job:events:*`
list and the presence of the `job:done:*` key. -/
structure BufferState where
  events : List BufEntry
  doneFlag : Bool
deriving DecidableEq, Repr

/-- The primitive Redis operations issued by the publisher and the
subscriber, in the order the Python code issues them. -/
inductive RedisOp
  | rpush (entry : BufEntry)
  | expire
  | setDone
  | publish (e : StreamEvent)
  | existsDone
  | lrangeAll
  | lrangeFrom (i : Nat)
  | llen
  | subscribe
  | unsubscribe
  | getMessage
deriving DecidableEq, Repr

/-- Whether an operation writes to the job's event buffer or done marker
(`rpush`, the TTL refresh `expire`, and the done-marker `set`).
Publishing on the live pub/sub channel writes neither. -/
def RedisOp.writesStore : RedisOp → Bool
  | .rpush _ => true
  | .expire => true
  | .setDone => true
  | _ => false

/-- Effect of one primitive operation on the per-job buffer state. -/
def applyOp (st : BufferState) : RedisOp → BufferState
  | .rpush entry => { st with events := st.events ++ [entry] }
  | .setDone => { st with doneFlag := true }
  | _ => st

def applyOps (st : BufferState) (ops : List RedisOp) : BufferState :=
  ops.foldl applyOp st

/-- `StreamPublisher._serialize_event`: serialization of a well-formed
event always decodes back to the event itself. -/
def serializeEvent (e : StreamEvent) : BufEntry := some e

/-- `StreamPublisher.publish_event` (publisher.py lines 122-141) as the
ordered trace of Redis operations it issues: STEP 1 buffer the event
(`rpush` + TTL refresh), STEP 2 publish to pub/sub, STEP 3 mark done if
this is the final event. -/
def publish_event_ops (e : StreamEvent) : List RedisOp :=
  [RedisOp.rpush (serializeEvent e), RedisOp.expire, RedisOp.publish e]
    ++ (if eventIsDone e then [RedisOp.setDone] else [])

/-- The buffer state after one `publish_event` call. -/
def publish_event (st : BufferState) (e : StreamEvent) : BufferState :=
  applyOps st (publish_event_ops e)

/-! ## Stream subscriber (publisher.py, `StreamSubscriber.stream_events`)

The generator is a function of the observations it makes.  One `Tick` is
what one iteration of the live `while True` loop observes:
`elapsed` is `time.time() - start_time` at the top of the iteration,
`msg` is the `pubsub.get_message(timeout=1.0)` outcome (`none`: no
message, or a non-"message" type entry; `some none`: a payload on which
`json.loads` raises; `some (some e)`: a decoded payload), and
`buf`/`doneFlag` are the buffer contents and done marker the iteration's
Redis reads would observe (the producer appends concurrently, so these
vary from tick to tick). -/
structure Tick where
  elapsed : Nat
  msg : Option BufEntry
  buf : List BufEntry
  doneFlag : Bool
deriving DecidableEq, Repr

/-- What the generator yields: a decoded event dict, or the synthetic
timeout dict `\x7b"event": "error", "message": "Stream timeout"\x7d`
(publisher.py line 266 — note this literal has no `recoverable` key). -/
inductive Yielded
  | ev (e : StreamEvent)
  | timeoutDict
deriving DecidableEq, Repr

/-- The `event` discriminator the SSE layer reads off a yielded dict. -/
def yieldedName : Yielded → String
  | .ev e => eventName e
  | .timeoutDict => "error"

/-- One run of the generator: the dicts it yielded and the Redis
operations it performed. -/
structure StreamRun where
  out : List Yielded
  ops : List RedisOp
deriving DecidableEq, Repr

/-- The `for ev_json in new_events` loop shared by the replay phase
(publisher.py lines 244-256) and the live suffix fetch (lines 285-296):
yield each decodable entry and bump `sent_count`, bump `sent_count` on a
`JSONDecodeError` and continue, and return as soon as a Done event was
yielded.  Result: (yielded events, entries consumed, halted-on-Done). -/
def drainNew : List BufEntry → List StreamEvent × Nat × Bool
  | [] => ([], 0, false)
  | none :: rest =>
      let r := drainNew rest
      (r.1, r.2.1 + 1, r.2.2)
  | some e :: rest =>
      if eventIsDone e then ([e], 1, true)
      else
        let r := drainNew rest
        (e :: r.1, r.2.1 + 1, r.2.2)

/-- PHASE 2 of `stream_events` (publisher.py lines 261-317): the live
listen loop, given the number of events already yielded and the per-
iteration observations.  An exhausted observation list models a still-
waiting generator (it yields nothing further in the modelled window). -/
def livePhase : Nat → List Tick → StreamRun
  | _, [] => ⟨[], []⟩
  | sent, t :: rest =>
    if 300 < t.elapsed then
      -- timeout: yield the synthetic error dict and return
      ⟨[Yielded.timeoutDict], [RedisOp.getMessage]⟩
    else
      match t.msg with
      | some (some _) =>
        -- a decoded live message is only a wake-up signal: recompute the
        -- buffer count and fetch exactly the unyielded suffix
        if sent < t.buf.length then
          let d := drainNew (t.buf.drop sent)
          if d.2.2 then
            ⟨d.1.map Yielded.ev,
             [RedisOp.getMessage, RedisOp.llen, RedisOp.lrangeFrom sent]⟩
          else
            let r := livePhase (sent + d.2.1) rest
            ⟨d.1.map Yielded.ev ++ r.out,
             [RedisOp.getMessage, RedisOp.llen, RedisOp.lrangeFrom sent] ++ r.ops⟩
        else
          let r := livePhase sent rest
          ⟨r.out, [RedisOp.getMessage, RedisOp.llen] ++ r.ops⟩
      | some none =>
        -- json.loads of the channel payload raised: continue
        let r := livePhase sent rest
        ⟨r.out, RedisOp.getMessage :: r.ops⟩
      | none =>
        -- no live message: re-check the done marker
        if t.doneFlag then
          -- flush any unyielded suffix (decodable entries only), stop
          ⟨((t.buf.drop sent).filterMap id).map Yielded.ev,
           if sent < t.buf.length then
             [RedisOp.getMessage, RedisOp.existsDone, RedisOp.llen,
              RedisOp.lrangeFrom sent]
           else
             [RedisOp.getMessage, RedisOp.existsDone, RedisOp.llen]⟩
        else
          let r := livePhase sent rest
          ⟨r.out, [RedisOp.getMessage, RedisOp.existsDone] ++ r.ops⟩

/-- `StreamSubscriber.stream_events` (publisher.py lines 209-322):
if the job is already done, replay the whole buffer and stop; otherwise
subscribe, replay the buffer (short-circuiting on a buffered Done), then
enter the live phase.  `st` is the buffer state at attach time, `ticks`
the live loop's subsequent observations. -/
def stream_events (st : BufferState) (ticks : List Tick) : StreamRun :=
  if st.doneFlag then
    ⟨(st.events.filterMap id).map Yielded.ev,
     [RedisOp.existsDone, RedisOp.lrangeAll]⟩
  else
    let d := drainNew st.events
    if d.2.2 then
      ⟨d.1.map Yielded.ev,
       [RedisOp.existsDone, RedisOp.subscribe, RedisOp.lrangeAll,
        RedisOp.unsubscribe]⟩
    else
      let r := livePhase d.2.1 ticks
      ⟨d.1.map Yielded.ev ++ r.out,
       [RedisOp.existsDone, RedisOp.subscribe, RedisOp.lrangeAll]
         ++ r.ops ++ [RedisOp.unsubscribe]⟩

/-! ## SSE endpoint layer (api/chat.py, `stream_chat_response.event_generator`)

The async generator wraps `stream_events`.  Per item it checks its own
5-minute deadline before forwarding; on its own timeout it yields
`\x7b"event": "error", ... "recoverable": False\x7d` and breaks; after
forwarding a `done`-typed item it breaks.  Client disconnect is not
modelled (the consumer stays attached). -/
inductive SSEItem
  | pass (d : Yielded)
  | outerTimeout
deriving DecidableEq, Repr

/-- `event_generator` (chat.py lines 90-135) over the wrapped stream,
each yielded dict paired with the outer `elapsed` at the moment it is
forwarded. -/
def event_generator : List (Nat × Yielded) → List SSEItem
  | [] => []
  | (el, d) :: rest =>
    if 300 < el then [SSEItem.outerTimeout]
    else
      SSEItem.pass d ::
        (if yieldedName d = "done" then [] else event_generator rest)

/-! ## Pipeline error path (queue/worker.py `process_chat_job`,
langgraph/agent.py `run_agent`)

The compiled graph is a strict forward chain
analyze → search → extract → synthesize → generate_ui → finalize (the
`error` node has no incoming edge), so an exception raised inside any
stage propagates out of `graph.invoke` and is caught in `run_agent`,
which publishes a non-recoverable Error followed by Done.  A `StageRun`
records, for one stage of one job, the events the stage published before
returning or raising. -/
structure StageRun where
  emitted : List StreamEvent
  failed : Option String
deriving DecidableEq, Repr

def isErrorEv : StreamEvent → Bool
  | .errorEv _ _ => true
  | _ => false

/-- `run_agent` (agent.py lines 548-586): execute the stages in order;
on the first raising stage, the events it published before raising have
already been broadcast, then the except-branch publishes
`ErrorEvent(message, recoverable=False)` and `DoneEvent()`, and no
further stage runs. -/
def runStages : List StageRun → List StreamEvent
  | [] => []
  | s :: rest =>
    match s.failed with
    | some msg =>
        s.emitted ++ [StreamEvent.errorEv msg false, StreamEvent.doneEv none]
    | none => s.emitted ++ runStages rest

/-! ## PDF processor (pdf/processor.py)

A corpus is the content of the PDF directory: each readable document is
its filename plus the extracted text of each page (1-indexed by
position).  The in-process caches of `PDFProcessor` are not modelled:
they are only ever filled from the same extraction results, so the
cacheless functions below compute the same values. -/
structure PdfDoc where
  filename : String
  pages : List String
deriving DecidableEq, Repr

/-- Python `\s` / `str.split()` whitespace, ASCII range (the inputs the
claims quantify over contain no non-ASCII whitespace). -/
def isSpaceCharPy (c : Char) : Bool :=
  c = ' ' || c = '\t' || c = '\n' || c = '\r' || c = '\x0b' || c = '\x0c'

def toLowerChars (l : List Char) : List Char := l.map Char.toLower

/-- Python `str.lower()`, character-wise (the special multi-character
Unicode lowerings do not occur in the inputs the claims quantify over). -/
def strLower (s : String) : String := String.mk (toLowerChars s.data)

/-- Python `str.endswith` (used for `Path.suffix` / `glob` checks). -/
def strEndsWith (s suffix : String) : Bool :=
  decide (s.data.reverse.take suffix.data.length = suffix.data.reverse)

/-- Python `int(...)` on a string of decimal digits (the only strings
the source applies it to: matches of the regex `\d+`). -/
def digitsVal (s : String) : Nat :=
  s.data.foldl (fun n c => n * 10 + (c.toNat - '0'.toNat)) 0

/-- `len(text.split())`: the number of maximal non-whitespace runs.
Each step consumes at least one character, so the explicit recursion
budget of the list's length always suffices: it only serves to make the
recursion structural. -/
def countWordRunsF : Nat → List Char → Nat
  | 0, _ => 0
  | _, [] => 0
  | fuel + 1, c :: rest =>
    if isSpaceCharPy c then countWordRunsF fuel rest
    else 1 + countWordRunsF fuel (rest.dropWhile (fun d => !isSpaceCharPy d))

def countWordRuns (l : List Char) : Nat := countWordRunsF l.length l

/-- PDFPage (schemas.py). -/
structure PDFPage where
  page_number : Nat
  text : String
  word_count : Nat
deriving DecidableEq, Repr

/-- `PDFProcessor.list_pdfs` (processor.py lines 33-54):
`pathlib.Path.glob("*.pdf")` — case-sensitive suffix match; hidden
(dot-prefixed) files are matched too, `pathlib` glob does not exclude
them.  Unreadable PDFs are skipped by the try/except; the corpus holds
the readable ones. -/
def list_pdfs (corpus : List PdfDoc) : List PdfDoc :=
  corpus.filter (fun d => strEndsWith d.filename ".pdf")

/-- `PDFProcessor.get_pdf_path` (processor.py lines 56-69): the file
exists in the directory and `Path(filename).suffix.lower() == ".pdf"`
(a bare ".pdf" has an empty suffix, hence the length guard). -/
def get_pdf_path (corpus : List PdfDoc) (filename : String) : Option PdfDoc :=
  match corpus.find? (fun d => d.filename = filename) with
  | some d =>
      if strEndsWith (strLower filename) ".pdf" && 4 < filename.length then
        some d
      else none
  | none => none

/-- `PDFProcessor.extract_document` (processor.py lines 71-125): resolve
the path and extract all pages (the claims use only filename and page
texts, which `PdfDoc` already carries). -/
def extract_document (corpus : List PdfDoc) (filename : String) : Option PdfDoc :=
  get_pdf_path corpus filename

/-- `PDFProcessor.extract_page` (processor.py lines 127-172): `None`
for a missing file, for `page_number < 1` or beyond the page count, and
on an extraction error (the try/except); otherwise the 1-indexed page.
The argument is an `Int` so that negative page numbers are expressible. -/
def extract_page (corpus : List PdfDoc) (filename : String)
    (page_number : Int) : Option PDFPage :=
  match get_pdf_path corpus filename with
  | none => none
  | some d =>
      if page_number < 1 ∨ page_number > (d.pages.length : Int) then none
      else
        let text := (d.pages.get? (page_number.toNat - 1)).getD ""
        some ⟨page_number.toNat, text, countWordRuns text.data⟩

/-- `sub` occurs in `s` starting at index `i` (Python `str.find`
semantics: the next `sub.length` characters match). -/
def matchesAt (s sub : List Char) (i : Nat) : Bool :=
  decide ((s.drop i).take sub.length = sub)

/-- Python `s.rfind(sub)`: the largest start index of an occurrence, or
none (`-1`). -/
def str_rfind (s sub : List Char) : Option Nat :=
  ((List.range (s.length + 1)).filter (matchesAt s sub)).getLast?

/-- Python `str.strip()` (ASCII whitespace, see `isSpaceCharPy`). -/
def pyStrip (s : List Char) : List Char :=
  ((s.dropWhile isSpaceCharPy).reverse.dropWhile isSpaceCharPy).reverse

/-- One iteration of the `get_semantic_chunks` while-loop (processor.py
lines 301-314): the `end` cursor after the optional sentence-boundary
cut (`chunk.rfind(". ")`, taken only when found past `chunk_size // 2`;
`rfind` returning -1 compares false). -/
def chunkNext (text : List Char) (chunk_size start : Nat) : Nat :=
  if start + chunk_size < text.length then
    match str_rfind ((text.drop start).take chunk_size) ['.', ' '] with
    | some p => if chunk_size / 2 < p then start + p + 1 else start + chunk_size
    | none => start + chunk_size
  else start + chunk_size

/-- The `while start < len(text)` loop of `get_semantic_chunks`, with an
explicit iteration budget (`none` = budget exhausted before the loop
exits; the loop itself has no bound).  `start := end - overlap` uses Nat
subtraction, which agrees with Python on every reachable iteration where
`overlap ≤ end` (in particular throughout the claims' parameter ranges
and for the node's call with chunk_size 1000, overlap 100). -/
def chunkLoop (text : List Char) (chunk_size overlap pn : Nat) :
    Nat → Nat → Option (List (Nat × String))
  | 0, start => if start < text.length then none else some []
  | fuel + 1, start =>
    if start < text.length then
      let stop := chunkNext text chunk_size start
      let chunk := ((text.drop start).take chunk_size).take (stop - start)
      match chunkLoop text chunk_size overlap pn fuel (stop - overlap) with
      | none => none
      | some rest => some ((pn, String.mk (pyStrip chunk)) :: rest)
    else some []

/-- The chunks one page contributes, with the iteration budget
`text.length + 1` (sufficient whenever `chunk_size ≥ 1`, proved below). -/
def pageChunks (text : List Char) (pn chunk_size overlap : Nat) :
    Option (List (Nat × String)) :=
  chunkLoop text chunk_size overlap pn (text.length + 1) 0

/-- The per-page loop of `get_semantic_chunks` (processor.py lines
295-314): pages with empty text are skipped. -/
def docChunks (chunk_size overlap : Nat) :
    List (Nat × String) → Option (List (Nat × String))
  | [] => some []
  | (pn, text) :: rest =>
    if text = "" then docChunks chunk_size overlap rest
    else
      match pageChunks text.data pn chunk_size overlap,
            docChunks chunk_size overlap rest with
      | some c, some r => some (c ++ r)
      | _, _ => none

/-- `enumerate(pdf.pages, start=1)`. -/
def enumPages (pages : List String) : List (Nat × String) :=
  pages.enum.map (fun pt => (pt.1 + 1, pt.2))

/-- `PDFProcessor.get_semantic_chunks` (processor.py lines 272-316). -/
def get_semantic_chunks (corpus : List PdfDoc) (filename : String)
    (chunk_size overlap : Nat) : Option (List (Nat × String)) :=
  match extract_document corpus filename with
  | none => some []
  | some d => docChunks chunk_size overlap (enumPages d.pages)

/-- All (overlapping) occurrence positions of `q` in `text`, in order:
the `pos = text_lower.find(query_lower, start); start = pos + 1` loop of
`search_text` (processor.py lines 207-236). -/
def occPositions (text q : List Char) : List Nat :=
  (List.range (text.length + 1)).filter (matchesAt text q)

/-- The context snippet around one match (processor.py lines 214-223):
100 characters each side of the occurrence in the original (uncased)
text, ellipsis-marked when truncated. -/
def mkContext (text : List Char) (pos qlen : Nat) : String :=
  let cs := pos - 100
  let ce := min text.length (pos + qlen + 100)
  let ctx := String.mk ((text.drop cs).take (ce - cs))
  let ctx := if 0 < cs then "..." ++ ctx else ctx
  if ce < text.length then ctx ++ "..." else ctx

/-- The hits of one page for `search_text`: case-insensitive positions,
context from the original text. -/
def pageHits (fname : String) (pn : Nat) (text : String) (query : String) :
    List (String × Nat × String × Nat × Nat) :=
  (occPositions (toLowerChars text.data) (toLowerChars query.data)).map
    (fun pos =>
      (fname, pn, mkContext text.data pos query.length, pos,
       pos + query.length))

/-- `PDFProcessor.search_text` with `filename=None` (processor.py lines
174-238): all listed documents, document/page/occurrence order, capped
at `max_results` (the mid-loop early return is exactly a prefix take). -/
def search_text (corpus : List PdfDoc) (query : String) (max_results : Nat) :
    List (String × Nat × String × Nat × Nat) :=
  (((list_pdfs corpus).map (fun f =>
      match extract_document corpus f.filename with
      | none => []
      | some d =>
          ((enumPages d.pages).map
            (fun pt => pageHits d.filename pt.1 pt.2 query)).flatten)).flatten
    ).take max_results

/-- `PDFProcessor.create_citation` (processor.py lines 240-270). -/
def create_citation (citation_id : Nat) (filename : String)
    (page_number : Nat) (text_snippet : String) : Citation :=
  { id := citation_id
    document_name := filename
    page_number := page_number
    text_snippet :=
      if 200 < text_snippet.length then text_snippet.take 200
      else text_snippet
    start_char := none
    end_char := none }

/-! ## Citation extraction (agent.py, `synthesize_answer_node` lines
358-389)

The regex `\[[\d,\s]+\]` matches a `[`, one or more characters from the
class digits/comma/whitespace, then `]`; since neither bracket is in the
class, the greedy scan matches exactly when the maximal class-run after
a `[` is nonempty and immediately followed by `]`.  `re.findall` is
left-to-right and non-overlapping. -/
def scanBracketsWithF (p : Char → Bool) : Nat → List Char → List (List Char)
  | 0, _ => []
  | _, [] => []
  | fuel + 1, c :: rest =>
    if c = '[' then
      match rest.dropWhile p with
      | ']' :: tail =>
          if (rest.takeWhile p).isEmpty then scanBracketsWithF p fuel rest
          else rest.takeWhile p :: scanBracketsWithF p fuel tail
      | _ => scanBracketsWithF p fuel rest
    else scanBracketsWithF p fuel rest

/-- Each scan step consumes at least one character, so the recursion
budget of the list's length always suffices. -/
def scanBracketsWith (p : Char → Bool) (l : List Char) : List (List Char) :=
  scanBracketsWithF p l.length l

/-- The character class `[\d,\s]` of the source's bracket regex. -/
def srcClassChar (c : Char) : Bool :=
  c.isDigit || c = ',' || isSpaceCharPy c

/-- `re.findall(r'\d+', bracket)`: the maximal digit runs, as strings
(recursion budget as in `countWordRunsF`). -/
def digitRunsF : Nat → List Char → List String
  | 0, _ => []
  | _, [] => []
  | fuel + 1, c :: rest =>
    if c.isDigit then
      String.mk (c :: rest.takeWhile Char.isDigit)
        :: digitRunsF fuel (rest.dropWhile Char.isDigit)
    else digitRunsF fuel rest

def digitRuns (l : List Char) : List String := digitRunsF l.length l

/-- The digit tokens found inside the source regex's bracket groups
(`cited_numbers` before deduplication, in document order). -/
def citedTokens (text : String) : List String :=
  ((scanBracketsWith srcClassChar text.data).map digitRuns).flatten

/-- First-occurrence deduplication.  The Python code iterates a `set`
in an unspecified order; the claims only constrain which citations are
emitted, never their order, so the model fixes document order. -/
def dedupFirst {α : Type} [DecidableEq α] (l : List α) : List α :=
  l.foldl (fun acc s => if s ∈ acc then acc else acc ++ [s]) []

/-- One iteration of the citation-emission loop of
`synthesize_answer_node` (agent.py lines 376-388): for a cited
number-string whose integer value is within range of
`relevant_documents`, the citation built from the `num - 1`-th section
(snippet `context[:150]`); nothing otherwise. -/
def citeOf (docs : List (String × Nat × String)) (num_str : String) :
    Option Citation :=
  let num := digitsVal num_str
  if 1 ≤ num ∧ num ≤ docs.length then
    match docs.get? (num - 1) with
    | some s => some (create_citation num s.1 s.2.1 (s.2.2.take 150))
    | none => none
  else none

/-- The citation extraction of `synthesize_answer_node` (agent.py lines
360-388): the distinct cited number-strings, each resolved by `citeOf`. -/
def synthCitations (full_response : String)
    (docs : List (String × Nat × String)) : List Citation :=
  (dedupFirst (citedTokens full_response)).filterMap (citeOf docs)

/-- Stated from the claim's wording, for comparison with the source
behaviour: a "bracketed digits/commas group" admits only digits and
commas between the brackets. -/
def claimClassChar (c : Char) : Bool := c.isDigit || c = ','

/-- Stated from the claim's wording: the distinct integers k with
1 ≤ k ≤ n appearing inside bracketed digits/commas groups of the text. -/
def claimCitedInts (text : String) (n : Nat) : List Nat :=
  (dedupFirst
      ((((scanBracketsWith claimClassChar text.data).map digitRuns).flatten).map
        (fun s => digitsVal s))).filter
    (fun k => decide (1 ≤ k) && decide (k ≤ n))

/-! ## Retrieval stage (agent.py, `search_documents_node` lines 163-269) -/

def STOPWORDS : List String :=
  ["summarize", "summarise", "my", "the", "a", "an", "is", "are", "was",
   "were", "what", "how", "why", "when", "where", "who", "which", "tell",
   "me", "about", "can", "you", "please", "give", "show", "find", "get",
   "list", "describe", "explain"]

/-- Python `str.split()`: maximal non-whitespace runs (recursion budget
as in `countWordRunsF`). -/
def pySplitF : Nat → List Char → List String
  | 0, _ => []
  | _, [] => []
  | fuel + 1, c :: rest =>
    if isSpaceCharPy c then pySplitF fuel rest
    else
      String.mk (c :: rest.takeWhile (fun d => !isSpaceCharPy d))
        :: pySplitF fuel (rest.dropWhile (fun d => !isSpaceCharPy d))

def pySplit (l : List Char) : List String := pySplitF l.length l

/-- `words = query.lower().split()` (agent.py line 185). -/
def queryWords (query : String) : List String :=
  pySplit (toLowerChars query.data)

/-- `keywords` (agent.py line 186): drop stopwords and tokens of length
≤ 2. -/
def keywords (query : String) : List String :=
  (queryWords query).filter
    (fun w => decide (w ∉ STOPWORDS) && decide (2 < w.length))

/-- Python `sub in s` substring test. -/
def isSubstr (sub s : List Char) : Bool :=
  (List.range (s.length + 1)).any (matchesAt s sub)

/-- PHASE 1 (agent.py lines 189-194): search each keyword with
`max_results=3`, appending hits not already present under the same
(filename, page) key. -/
def phase1 (corpus : List PdfDoc) (query : String) :
    List (String × Nat × String) :=
  (keywords query).foldl
    (fun acc kw =>
      (search_text corpus kw 3).foldl
        (fun acc2 r =>
          if acc2.any (fun s => s.1 == r.1 && s.2.1 == r.2.1) then acc2
          else acc2 ++ [(r.1, r.2.1, r.2.2.1)])
        acc)
    []

/-- PHASE 2 (agent.py lines 199-210): for each listed document, if the
first query word of length > 2 that substring-matches the lowercased
filename exists, load its first page (kept only when the text is
nonempty), one attempt per document. -/
def phase2 (corpus : List PdfDoc) (query : String) :
    List (String × Nat × String) :=
  ((list_pdfs corpus).map (fun pdf =>
    match (queryWords query).find?
        (fun w =>
          isSubstr w.data (strLower pdf.filename).data && decide (2 < w.length))
      with
    | some _ =>
        match extract_page corpus pdf.filename 1 with
        | some page =>
            if page.text ≠ "" then [(pdf.filename, 1, page.text.take 500)]
            else []
        | none => []
    | none => [])).flatten

/-- The chunks one document contributes in PHASE 3 (agent.py lines
217-223): the first 3 semantic chunks (chunk_size 1000, overlap 100)
with nonempty text. -/
def chunkSel (corpus : List PdfDoc) (pdf : PdfDoc) :
    List (String × Nat × String) :=
  (((get_semantic_chunks corpus pdf.filename 1000 100).getD []).take 3
    ).filterMap
    (fun ct => if ct.2 ≠ "" then some (pdf.filename, ct.1, ct.2) else none)

/-- The PHASE-3 fallback of last resort (agent.py lines 226-230): the
first page's text, truncated to 2000 characters, when nonempty. -/
def firstPageSel (corpus : List PdfDoc) (pdf : PdfDoc) :
    List (String × Nat × String) :=
  match extract_page corpus pdf.filename 1 with
  | some page =>
      if page.text ≠ "" then [(pdf.filename, 1, page.text.take 2000)]
      else []
  | none => []

/-- PHASE 3 (agent.py lines 216-230). -/
def phase3 (corpus : List PdfDoc) : List (String × Nat × String) :=
  let viaChunks := ((list_pdfs corpus).map (chunkSel corpus)).flatten
  if viaChunks ≠ [] then viaChunks
  else ((list_pdfs corpus).map (firstPageSel corpus)).flatten

/-- The UI feedback block (agent.py lines 235-257). -/
def searchInfoBlock (docs : List (String × Nat × String)) : UIBlock :=
  if docs ≠ [] then
    ⟨UIBlockType.info_card,
     UIBlockData.infoCard
       ⟨"📚 Documents Loaded",
        "Loaded " ++ toString docs.length ++ " section(s) from "
          ++ toString (dedupFirst (docs.map (fun d => d.1))).length
          ++ " document(s).",
        some "📑"⟩⟩
  else
    ⟨UIBlockType.info_card,
     UIBlockData.infoCard
       ⟨"📭 No Documents",
        "No PDF documents found. Please upload documents first.",
        some "⚠️"⟩⟩

/-- `search_documents_node` (agent.py lines 163-269): the three-phase
fallback, then the info block; returns the section list and the emitted
block. -/
def search_documents_node (corpus : List PdfDoc) (query : String) :
    List (String × Nat × String) × UIBlock :=
  let d1 := phase1 corpus query
  let d2 := if d1 = [] then phase2 corpus query else d1
  let d3 := if d2 = [] then phase3 corpus else d2
  (d3, searchInfoBlock d3)

/-! ## Sources table (agent.py, `generate_ui_blocks_node` lines 398-438) -/

/-- One step of building `unique_docs`: an insertion-ordered dict from
filename to its distinct page numbers in insertion order. -/
def addPage : List (String × List Nat) → String → Nat →
    List (String × List Nat)
  | [], f, p => [(f, [p])]
  | (g, ps) :: rest, f, p =>
    if g = f then (g, if p ∈ ps then ps else ps ++ [p]) :: rest
    else (g, ps) :: addPage rest f p

def uniqueDocs (docs : List (String × Nat × String)) :
    List (String × List Nat) :=
  docs.foldl (fun acc d => addPage acc d.1 d.2.1) []

def insertSorted (n : Nat) : List Nat → List Nat
  | [] => [n]
  | m :: rest => if n ≤ m then n :: m :: rest else m :: insertSorted n rest

/-- Python `sorted` on a list of ints (ascending). -/
def sortNat (l : List Nat) : List Nat := l.foldr insertSorted []

/-- `pages_str` (agent.py lines 418-420): the first 3 sorted pages,
comma-joined, plus an overflow count when more than 3 pages exist. -/
def pagesCell (pages : List Nat) : String :=
  let s := String.intercalate ", " (((sortNat pages).take 3).map toString)
  if 3 < pages.length then
    s ++ " (+" ++ toString (pages.length - 3) ++ " more)"
  else s

/-- `generate_ui_blocks_node` (agent.py lines 398-438): the sources
table it emits, if any. -/
def generate_ui_blocks_node (docs : List (String × Nat × String)) :
    Option TableData :=
  if 2 ≤ docs.length then
    let rows := (uniqueDocs docs).map (fun fp => [fp.1, pagesCell fp.2])
    if rows ≠ [] then
      some ⟨["Document", "Relevant Pages"], rows,
            some "Sources referenced in this response"⟩
    else none
  else none

/-! ## Helper lemmas -/

theorem drainNew_spec (l : List BufEntry) :
    (drainNew l).1 = (l.take (drainNew l).2.1).filterMap id ∧
    (drainNew l).2.1 ≤ l.length ∧
    ((drainNew l).2.2 = false → (drainNew l).2.1 = l.length) := by
  induction l with
  | nil => simp [drainNew]
  | cons a rest ih =>
    match a with
    | none =>
      simp only [drainNew]
      refine ⟨?_, ?_, ?_⟩
      · simpa [List.take_cons, List.filterMap_cons] using ih.1
      · simpa using ih.2.1
      · intro hf
        have := ih.2.2 hf
        simp [this]
    | some e =>
      by_cases hd : eventIsDone e
      · simp [drainNew, hd, List.take_cons, List.filterMap_cons]
      · simp only [drainNew, hd, if_false, Bool.false_eq_true]
        refine ⟨?_, ?_, ?_⟩
        · simpa [List.take_cons, List.filterMap_cons] using ih.1
        · simpa using ih.2.1
        · intro hf
          have := ih.2.2 hf
          simp [this]

theorem count_filterMap_id (l : List BufEntry) (e : StreamEvent) :
    (l.filterMap id).count e = l.count (some e) := by
  induction l with
  | nil => rfl
  | cons a rest ih =>
    match a with
    | none => simpa [List.filterMap_cons, List.count_cons] using ih
    | some b =>
      by_cases hb : b = e
      · subst hb
        simp [List.filterMap_cons, List.count_cons, ih]
      · have hb2 : (some b : BufEntry) ≠ some e := by simpa using hb
        simp [List.filterMap_cons, List.count_cons, hb, hb2, ih]

theorem yielded_ev_injective : Function.Injective Yielded.ev := by
  intro a b h
  injection h

/-! ## Claim theorems -/

/-- C3: `publish_event` appends the serialized event to the job's buffer
strictly before broadcasting it on the live channel (in its operation
trace, the `rpush` of the event precedes every `publish` of it), and
publishing a Done event sets the done marker within the same call, so
`is_done` is true as soon as `publish_event` of a Done event returns. -/
theorem claimC3_buffer_before_broadcast :
    (∀ e : StreamEvent,
      ∃ i j, i < j ∧
        (publish_event_ops e).get? i = some (RedisOp.rpush (serializeEvent e)) ∧
        (publish_event_ops e).get? j = some (RedisOp.publish e) ∧
        ∀ k, (publish_event_ops e).get? k = some (RedisOp.publish e) → i < k) ∧
    (∀ (st : BufferState) (t : Option Nat),
      (publish_event st (StreamEvent.doneEv t)).doneFlag = true) := by
  constructor
  · intro e
    refine ⟨0, 2, by omega, ?_, ?_, ?_⟩
    · cases he : eventIsDone e <;> simp [publish_event_ops, he]
    · cases he : eventIsDone e <;> simp [publish_event_ops, he]
    · intro k hk
      match k with
      | 0 =>
        exfalso
        cases he : eventIsDone e <;>
          simp [publish_event_ops, he] at hk
      | k + 1 => omega
  · intro st t
    simp [publish_event, publish_event_ops, applyOps, applyOp, eventIsDone]

/-- C9: `extract_page` is total (modelled as a function into `Option`,
mirroring the source's catch-all exception handling): it returns `none`
whenever the file is absent from the PDF directory or the page number is
below 1 or above the document's page count, and it returns a page only
for an in-range page of a file it resolved. -/
theorem claimC9_extract_page_safe :
    ∀ (corpus : List PdfDoc) (filename : String) (pn : Int),
      (corpus.find? (fun d => d.filename = filename) = none →
        extract_page corpus filename pn = none) ∧
      (∀ d, get_pdf_path corpus filename = some d →
        (pn < 1 ∨ (d.pages.length : Int) < pn) →
        extract_page corpus filename pn = none) ∧
      (∀ p, extract_page corpus filename pn = some p →
        ∃ d, get_pdf_path corpus filename = some d ∧
          1 ≤ pn ∧ pn ≤ (d.pages.length : Int)) := by
  intro corpus filename pn
  refine ⟨?_, ?_, ?_⟩
  · intro hfind
    simp [extract_page, get_pdf_path, hfind]
  · intro d hd hrange
    have : pn < 1 ∨ pn > (d.pages.length : Int) := by omega
    simp [extract_page, hd, this]
  · intro p hp
    match hg : get_pdf_path corpus filename with
    | none => simp [extract_page, hg] at hp
    | some d =>
      by_cases hr : pn < 1 ∨ pn > (d.pages.length : Int)
      · simp [extract_page, hg, hr] at hp
      · exact ⟨d, rfl, by omega, by omega⟩

/-- C1: a consumer that attaches after the done marker is set replays
the whole buffer once — its output is exactly the decodable buffered
entries, in buffer order, each buffered event yielded exactly once — and
it never enters the live phase: its output and its operation trace (two
reads, no subscription, no `getMessage`) do not depend on any subsequent
live-loop observations. -/
theorem claimC1_late_attach_replay :
    ∀ (evs : List BufEntry) (ticks : List Tick),
      (stream_events ⟨evs, true⟩ ticks).out
          = (evs.filterMap id).map Yielded.ev ∧
      (stream_events ⟨evs, true⟩ ticks).ops
          = [RedisOp.existsDone, RedisOp.lrangeAll] ∧
      ∀ e : StreamEvent,
        ((stream_events ⟨evs, true⟩ ticks).out).count (Yielded.ev e)
          = evs.count (some e) := by
  intro evs ticks
  refine ⟨by simp [stream_events], by simp [stream_events], ?_⟩
  intro e
  simp only [stream_events, if_pos]
  rw [List.count_map_of_injective _ Yielded.ev yielded_ev_injective]
  exact count_filterMap_id evs e

/-- C2: live-phase deduplication.  Take any append-only buffer history:
a fixed eventual buffer `B` of which every tick's observed buffer is a
prefix, and any sequence of live-loop observations within the deadline —
notifications may be duplicated, reordered, undecodable or missing.  The
events yielded by the live phase are exactly the decodable entries of
one contiguous segment of `B` starting at the count already yielded: no
buffered position is yielded twice and none is skipped, because each
notification only triggers a suffix fetch keyed by the yielded count.
In particular a notification delivered twice for the same new event
yields that event exactly once. -/
theorem claimC2_live_phase_dedup :
    ∀ (B : List BufEntry) (ticks : List Tick) (sent : Nat),
      sent ≤ B.length →
      (∀ t ∈ ticks,
        (∃ k, k ≤ B.length ∧ t.buf = B.take k) ∧ t.elapsed ≤ 300) →
      ∃ m, sent ≤ m ∧ m ≤ B.length ∧
        (livePhase sent ticks).out
          = (((B.drop sent).take (m - sent)).filterMap id).map Yielded.ev := by
  intro B ticks
  induction ticks with
  | nil =>
    intro sent hs _
    refine ⟨sent, le_refl _, hs, ?_⟩
    simp [livePhase]
  | cons t rest ih =>
    intro sent hs hticks
    obtain ⟨⟨k, hk, hbuf⟩, helapsed⟩ := hticks t (List.mem_cons_self t rest)
    have hrest : ∀ t' ∈ rest,
        (∃ k, k ≤ B.length ∧ t'.buf = B.take k) ∧ t'.elapsed ≤ 300 :=
      fun t' ht' => hticks t' (List.mem_cons_of_mem t ht')
    have hnotime : ¬ 300 < t.elapsed := by omega
    have hlen : t.buf.length = k := by
      rw [hbuf, List.length_take]; omega
    have hsegment : t.buf.drop sent = (B.drop sent).take (k - sent) := by
      rw [hbuf, List.drop_take]
    match hmsg : t.msg with
    | some (some e0) =>
      by_cases hcnt : sent < t.buf.length
      · -- wake-up notification with new entries: fetch the suffix
        obtain ⟨⟨ys, c, halted⟩, hdn⟩ :
            ∃ r, drainNew (t.buf.drop sent) = r := ⟨_, rfl⟩
        obtain ⟨hd1, hd2, hd3⟩ := drainNew_spec (t.buf.drop sent)
        rw [hdn] at hd1 hd2 hd3
        simp only at hd1 hd2 hd3
        have hdlen : (t.buf.drop sent).length = k - sent := by
          rw [List.length_drop, hlen]
        have hconsumed : c ≤ k - sent := by omega
        have htake : (t.buf.drop sent).take c = (B.drop sent).take c := by
          rw [hsegment, List.take_take, min_eq_left hconsumed]
        by_cases hhalt : halted = true
        · -- the fetched suffix contained Done: yield it and stop
          subst hhalt
          refine ⟨sent + c, by omega, by omega, ?_⟩
          have hout : (livePhase sent (t :: rest)).out = ys.map Yielded.ev := by
            simp [livePhase, hnotime, hmsg, hcnt, hdn]
          rw [hout, hd1, htake]
          have : sent + c - sent = c := by omega
          rw [this]
        · -- no Done yet: yield the suffix and continue live
          have hcfull : c = k - sent := by
            have := hd3 (by simpa using hhalt)
            omega
          obtain ⟨m', hm'1, hm'2, hout'⟩ := ih k hk hrest
          refine ⟨m', by omega, hm'2, ?_⟩
          have hhalt' : halted = false := by simpa using hhalt
          subst hhalt'
          have hout : (livePhase sent (t :: rest)).out
              = ys.map Yielded.ev ++ (livePhase (sent + c) rest).out := by
            simp [livePhase, hnotime, hmsg, hcnt, hdn]
          have hsc : sent + c = k := by omega
          rw [hout, hsc, hout', hd1, htake]
          have hsplit : m' - sent = c + (m' - k) := by omega
          rw [hsplit, List.take_add, List.filterMap_append, List.map_append]
          have hdropk : (B.drop sent).drop c = B.drop k := by
            rw [List.drop_drop, hsc]
          rw [hdropk]
      · -- notification but nothing new: continue unchanged
        obtain ⟨m, h1, h2, hout'⟩ := ih sent hs hrest
        refine ⟨m, h1, h2, ?_⟩
        have hout : (livePhase sent (t :: rest)).out
            = (livePhase sent rest).out := by
          simp [livePhase, hnotime, hmsg, hcnt]
        rw [hout, hout']
    | some none =>
      -- undecodable channel payload: continue
      obtain ⟨m, h1, h2, hout'⟩ := ih sent hs hrest
      refine ⟨m, h1, h2, ?_⟩
      have hout : (livePhase sent (t :: rest)).out
          = (livePhase sent rest).out := by
        simp [livePhase, hnotime, hmsg]
      rw [hout, hout']
    | none =>
      by_cases hdone : t.doneFlag = true
      · -- done marker observed: flush the unyielded suffix and stop
        refine ⟨max sent k, le_max_left _ _, by omega, ?_⟩
        have hout : (livePhase sent (t :: rest)).out
            = ((t.buf.drop sent).filterMap id).map Yielded.ev := by
          simp [livePhase, hnotime, hmsg, hdone]
        rw [hout, hsegment]
        have : k - sent = max sent k - sent := by omega
        rw [this]
      · -- still waiting: continue
        obtain ⟨m, h1, h2, hout'⟩ := ih sent hs hrest
        refine ⟨m, h1, h2, ?_⟩
        have hout : (livePhase sent (t :: rest)).out
            = (livePhase sent rest).out := by
          simp [livePhase, hnotime, hmsg, hdone]
        rw [hout, hout']

/-- Witness for C2: a live channel notification for the second buffered
event arrives twice; the consumer yields that event exactly once. -/
theorem claimC2_live_phase_dedup_witness :
    (∃ m, 1 ≤ m ∧ m ≤ 2 ∧
      (livePhase 1
        [⟨10, some (some (StreamEvent.textChunk "b")),
          [some (StreamEvent.textChunk "a"), some (StreamEvent.textChunk "b")],
          false⟩,
         ⟨11, some (some (StreamEvent.textChunk "b")),
          [some (StreamEvent.textChunk "a"), some (StreamEvent.textChunk "b")],
          false⟩]).out
        = ((([some (StreamEvent.textChunk "a"),
              some (StreamEvent.textChunk "b")].drop 1).take (m - 1)
            ).filterMap id).map Yielded.ev) ∧
    (livePhase 1
        [⟨10, some (some (StreamEvent.textChunk "b")),
          [some (StreamEvent.textChunk "a"), some (StreamEvent.textChunk "b")],
          false⟩,
         ⟨11, some (some (StreamEvent.textChunk "b")),
          [some (StreamEvent.textChunk "a"), some (StreamEvent.textChunk "b")],
          false⟩]).out
      = [Yielded.ev (StreamEvent.textChunk "b")] :=
  ⟨claimC2_live_phase_dedup
      [some (StreamEvent.textChunk "a"), some (StreamEvent.textChunk "b")]
      [⟨10, some (some (StreamEvent.textChunk "b")),
        [some (StreamEvent.textChunk "a"), some (StreamEvent.textChunk "b")],
        false⟩,
       ⟨11, some (some (StreamEvent.textChunk "b")),
        [some (StreamEvent.textChunk "a"), some (StreamEvent.textChunk "b")],
        false⟩]
      1 (by decide)
      (by
        intro t ht
        simp only [List.mem_cons, List.not_mem_nil, or_false] at ht
        rcases ht with h | h <;>
          (subst h; exact ⟨⟨2, by decide, by decide⟩, by decide⟩)),
    by decide⟩

/-- The `event` discriminator is "done" exactly for Done events. -/
theorem eventName_done_iff (e : StreamEvent) :
    eventName e = "done" ↔ eventIsDone e = true := by
  cases e <;> simp [eventName, eventIsDone]

/-- A buffer slice containing no decodable Done event is fully drained
without halting. -/
theorem drainNew_nodone (l : List BufEntry)
    (h : ∀ e ∈ l.filterMap id, eventIsDone e = false) :
    drainNew l = (l.filterMap id, l.length, false) := by
  induction l with
  | nil => rfl
  | cons a rest ih =>
    match a with
    | none =>
      have hrest := ih (fun e he => h e (by simpa [List.filterMap_cons] using he))
      simp [drainNew, hrest, List.filterMap_cons]
    | some b =>
      have hb : eventIsDone b = false := h b (by simp [List.filterMap_cons])
      have hrest := ih (fun e he => h e (by simp [List.filterMap_cons, he]))
      simp [drainNew, hb, hrest, List.filterMap_cons]

/-- A live phase that sees no message and no done marker until the
deadline passes emits exactly the synthetic timeout dict. -/
theorem livePhase_quiet_timeout :
    ∀ (quiet : List Tick) (sent : Nat) (tmo : Tick),
      (∀ t ∈ quiet, t.msg = none ∧ t.doneFlag = false ∧ t.elapsed ≤ 300) →
      300 < tmo.elapsed →
      (livePhase sent (quiet ++ [tmo])).out = [Yielded.timeoutDict] := by
  intro quiet
  induction quiet with
  | nil =>
    intro sent tmo _ htmo
    simp [livePhase, htmo]
  | cons t rest ih =>
    intro sent tmo hq htmo
    obtain ⟨hmsg, hdone, helapsed⟩ := hq t (List.mem_cons_self t rest)
    have hnotime : ¬ 300 < t.elapsed := by omega
    have hrest := fun t' ht' => hq t' (List.mem_cons_of_mem t ht')
    have hstep : (livePhase sent ((t :: rest) ++ [tmo])).out
        = (livePhase sent (rest ++ [tmo])).out := by
      simp [livePhase, hmsg, hdone, hnotime]
    rw [hstep, ih sent tmo hrest htmo]

/-- The live loop only reads: none of its Redis operations writes the
buffer or the done marker. -/
theorem livePhase_ops_read_only :
    ∀ (ticks : List Tick) (sent : Nat) (op : RedisOp),
      op ∈ (livePhase sent ticks).ops → op.writesStore = false := by
  intro ticks
  induction ticks with
  | nil =>
    intro sent op hop
    simp [livePhase] at hop
  | cons t rest ih =>
    intro sent op hop
    by_cases ht : 300 < t.elapsed
    · simp [livePhase, ht] at hop
      subst hop; rfl
    · match hmsg : t.msg with
      | some (some e0) =>
        by_cases hcnt : sent < t.buf.length
        · by_cases hhalt : (drainNew (t.buf.drop sent)).2.2 = true
          · simp [livePhase, ht, hmsg, hcnt, hhalt] at hop
            rcases hop with rfl | rfl | rfl <;> rfl
          · have hhalt' : (drainNew (t.buf.drop sent)).2.2 = false := by
              simpa using hhalt
            simp [livePhase, ht, hmsg, hcnt, hhalt'] at hop
            rcases hop with rfl | rfl | rfl | h
            · rfl
            · rfl
            · rfl
            · exact ih _ _ h
        · simp [livePhase, ht, hmsg, hcnt] at hop
          rcases hop with rfl | rfl | h
          · rfl
          · rfl
          · exact ih _ _ h
      | some none =>
        simp [livePhase, ht, hmsg] at hop
        rcases hop with rfl | h
        · rfl
        · exact ih _ _ h
      | none =>
        by_cases hdone : t.doneFlag = true
        · by_cases hfl : sent < t.buf.length <;>
            · simp [livePhase, ht, hmsg, hdone, hfl] at hop
              rcases hop with rfl | rfl | rfl | rfl <;> rfl
        · simp [livePhase, ht, hmsg, hdone] at hop
          rcases hop with rfl | rfl | h
          · rfl
          · rfl
          · exact ih _ _ h

/-- The whole subscriber only reads. -/
theorem stream_events_ops_read_only :
    ∀ (st : BufferState) (ticks : List Tick) (op : RedisOp),
      op ∈ (stream_events st ticks).ops → op.writesStore = false := by
  intro st ticks op hop
  by_cases hd : st.doneFlag = true
  · simp [stream_events, hd] at hop
    rcases hop with rfl | rfl <;> rfl
  · by_cases hh : (drainNew st.events).2.2 = true
    · simp [stream_events, hd, hh] at hop
      rcases hop with rfl | rfl | rfl | rfl <;> rfl
    · have hh' : (drainNew st.events).2.2 = false := by simpa using hh
      simp [stream_events, hd, hh'] at hop
      rcases hop with rfl | rfl | rfl | h | rfl
      · rfl
      · rfl
      · rfl
      · exact livePhase_ops_read_only _ _ _ h
      · rfl

/-- The SSE layer forwards in-deadline, non-done items unchanged. -/
theorem event_generator_pass :
    ∀ (ps tail : List (Nat × Yielded)),
      (∀ p ∈ ps, p.1 ≤ 300 ∧ yieldedName p.2 ≠ "done") →
      event_generator (ps ++ tail)
        = ps.map (fun p => SSEItem.pass p.2) ++ event_generator tail := by
  intro ps
  induction ps with
  | nil => intro tail _; simp
  | cons p rest ih =>
    intro tail hps
    obtain ⟨hel, hname⟩ := hps p (List.mem_cons_self p rest)
    have hrest := fun p' hp' => hps p' (List.mem_cons_of_mem p hp')
    obtain ⟨el, d⟩ := p
    have hnotime : ¬ 300 < el := by simpa using hel
    simp only at hname
    simp only [List.cons_append, event_generator, if_neg hnotime, if_neg hname,
      List.append_eq]
    rw [ih tail hrest]
    simp

/-- C4: with no Done event buffered and no live activity or completion
through the full 5-minute deadline, the subscriber emits the replayed
prefix and then exactly one synthetic timeout dict; the SSE layer, whose
own clock started no later, replaces it with exactly one synthetic Error
whose `recoverable` flag is false, followed by nothing; and the whole
consumer run performs no write to the job's buffer or done marker. -/
theorem claimC4_stream_timeout
    (evs : List BufEntry) (quiet : List Tick) (tmo : Tick)
    (prePairs : List (Nat × Yielded)) (elN : Nat)
    (hnodone : ∀ e ∈ evs.filterMap id, eventIsDone e = false)
    (hquiet : ∀ t ∈ quiet, t.msg = none ∧ t.doneFlag = false ∧ t.elapsed ≤ 300)
    (htmo : 300 < tmo.elapsed)
    (hpairs : prePairs.map Prod.snd = (evs.filterMap id).map Yielded.ev)
    (hpre : ∀ p ∈ prePairs, p.1 ≤ 300)
    (helN : 300 < elN) :
    (stream_events ⟨evs, false⟩ (quiet ++ [tmo])).out
        = (evs.filterMap id).map Yielded.ev ++ [Yielded.timeoutDict] ∧
    event_generator (prePairs ++ [(elN, Yielded.timeoutDict)])
        = ((evs.filterMap id).map (fun e => SSEItem.pass (Yielded.ev e)))
            ++ [SSEItem.outerTimeout] ∧
    (event_generator (prePairs ++ [(elN, Yielded.timeoutDict)])).count
        SSEItem.outerTimeout = 1 ∧
    (∀ op ∈ (stream_events ⟨evs, false⟩ (quiet ++ [tmo])).ops,
      op.writesStore = false) := by
  have hdrain := drainNew_nodone evs hnodone
  have hlp := livePhase_quiet_timeout quiet evs.length tmo hquiet htmo
  have hinner : (stream_events ⟨evs, false⟩ (quiet ++ [tmo])).out
      = (evs.filterMap id).map Yielded.ev ++ [Yielded.timeoutDict] := by
    simp [stream_events, hdrain, hlp]
  have houter : event_generator (prePairs ++ [(elN, Yielded.timeoutDict)])
      = ((evs.filterMap id).map (fun e => SSEItem.pass (Yielded.ev e)))
          ++ [SSEItem.outerTimeout] := by
    have hprops : ∀ p ∈ prePairs, p.1 ≤ 300 ∧ yieldedName p.2 ≠ "done" := by
      intro p hp
      refine ⟨hpre p hp, ?_⟩
      have hmem : p.2 ∈ prePairs.map Prod.snd := List.mem_map_of_mem _ hp
      rw [hpairs] at hmem
      obtain ⟨e, he, heq⟩ := List.mem_map.mp hmem
      rw [← heq]
      intro hname
      have hdone : eventIsDone e = true :=
        (eventName_done_iff e).mp (by simpa [yieldedName] using hname)
      rw [hnodone e he] at hdone
      cases hdone
    rw [event_generator_pass prePairs _ hprops]
    have htail : event_generator [(elN, Yielded.timeoutDict)]
        = [SSEItem.outerTimeout] := by
      simp [event_generator, helN]
    rw [htail]
    have h2 : prePairs.map (fun p => SSEItem.pass p.2)
        = (evs.filterMap id).map (fun e => SSEItem.pass (Yielded.ev e)) := by
      have h3 := congrArg (List.map SSEItem.pass) hpairs
      simpa [List.map_map, Function.comp] using h3
    rw [h2]
  refine ⟨hinner, houter, ?_, ?_⟩
  · rw [houter, List.count_append]
    have h1 : (((evs.filterMap id).map
        (fun e => SSEItem.pass (Yielded.ev e))).count SSEItem.outerTimeout)
        = 0 := by
      rw [List.count_eq_zero]
      intro hmem
      obtain ⟨e, _, heq⟩ := List.mem_map.mp hmem
      cases heq
    rw [h1]
    rfl
  · exact fun op hop => stream_events_ops_read_only _ _ op hop

/-- Witness for C4: one buffered text chunk, one quiet poll, then the
deadline passes; the composed stream is the chunk then one
recoverable-false synthetic error. -/
theorem claimC4_stream_timeout_witness :
    (stream_events ⟨[some (StreamEvent.textChunk "x")], false⟩
        [⟨10, none, [], false⟩, ⟨301, none, [], false⟩]).out
        = ([some (StreamEvent.textChunk "x")].filterMap id).map Yielded.ev
            ++ [Yielded.timeoutDict] ∧
    event_generator
        [(5, Yielded.ev (StreamEvent.textChunk "x")),
         (302, Yielded.timeoutDict)]
        = (([some (StreamEvent.textChunk "x")].filterMap id).map
            (fun e => SSEItem.pass (Yielded.ev e)))
            ++ [SSEItem.outerTimeout] ∧
    (event_generator
        [(5, Yielded.ev (StreamEvent.textChunk "x")),
         (302, Yielded.timeoutDict)]).count SSEItem.outerTimeout = 1 ∧
    (∀ op ∈ (stream_events ⟨[some (StreamEvent.textChunk "x")], false⟩
        [⟨10, none, [], false⟩, ⟨301, none, [], false⟩]).ops,
      op.writesStore = false) :=
  claimC4_stream_timeout
    [some (StreamEvent.textChunk "x")]
    [⟨10, none, [], false⟩] ⟨301, none, [], false⟩
    [(5, Yielded.ev (StreamEvent.textChunk "x"))] 302
    (by decide) (by decide) (by decide) (by decide) (by decide) (by decide)

/-- C7: when a pipeline stage raises (the clean stages before it having
neither raised nor emitted Error/Done events, and the failing stage not
having emitted any Error before raising), the job's published stream is
the events emitted so far followed by exactly one Error event with
`recoverable = false` and then a Done event — independent of the stages
after the failing one, which never run: the failed stage is not retried
and no further stage events are published. -/
theorem claimC7_error_path
    (pre : List StageRun) (s : StageRun) (post : List StageRun) (msg : String)
    (hfail : s.failed = some msg)
    (hclean : ∀ p ∈ pre, p.failed = none)
    (hnoerr : ∀ p ∈ pre, ∀ e ∈ p.emitted, isErrorEv e = false)
    (hserr : ∀ e ∈ s.emitted, isErrorEv e = false) :
    runStages (pre ++ s :: post)
        = ((pre.map StageRun.emitted).flatten ++ s.emitted)
            ++ [StreamEvent.errorEv msg false, StreamEvent.doneEv none] ∧
    (runStages (pre ++ s :: post)).countP isErrorEv = 1 ∧
    (runStages (pre ++ s :: post)).getLast?
        = some (StreamEvent.doneEv none) := by
  have hrun : runStages (pre ++ s :: post)
      = ((pre.map StageRun.emitted).flatten ++ s.emitted)
          ++ [StreamEvent.errorEv msg false, StreamEvent.doneEv none] := by
    induction pre with
    | nil =>
      simp [runStages, hfail]
    | cons p ps ih =>
      have hp := hclean p (List.mem_cons_self p ps)
      have ihs := ih (fun q hq => hclean q (List.mem_cons_of_mem p hq))
        (fun q hq => hnoerr q (List.mem_cons_of_mem p hq))
      simp only [List.cons_append, runStages, hp, List.append_eq]
      rw [ihs]
      simp
  refine ⟨hrun, ?_, ?_⟩
  · rw [hrun]
    rw [List.countP_append, List.countP_append]
    have h1 : ((pre.map StageRun.emitted).flatten).countP isErrorEv = 0 := by
      rw [List.countP_eq_zero]
      intro e he
      obtain ⟨l, hl, hel⟩ := List.mem_flatten.mp he
      obtain ⟨p, hp, hpe⟩ := List.mem_map.mp hl
      subst hpe
      simp [hnoerr p hp e hel]
    have h2 : s.emitted.countP isErrorEv = 0 := by
      rw [List.countP_eq_zero]
      intro e he
      simp [hserr e he]
    rw [h1, h2]
    rfl
  · rw [hrun]
    have : ((pre.map StageRun.emitted).flatten ++ s.emitted)
          ++ [StreamEvent.errorEv msg false, StreamEvent.doneEv none]
        = (((pre.map StageRun.emitted).flatten ++ s.emitted)
            ++ [StreamEvent.errorEv msg false])
          ++ [StreamEvent.doneEv none] := by
      simp
    rw [this, List.getLast?_concat]

/-- Witness for C7: the first stage emits a ToolStart and raises; the
stream is that event, one non-recoverable Error, then Done. -/
theorem claimC7_error_path_witness :
    runStages
        ([] ++ ⟨[StreamEvent.toolCallStart ToolType.search_documents
                    "search_documents" "searching"], some "boom"⟩ ::
          [⟨[StreamEvent.doneEv none], none⟩])
      = (([].map StageRun.emitted).flatten
            ++ [StreamEvent.toolCallStart ToolType.search_documents
                  "search_documents" "searching"])
          ++ [StreamEvent.errorEv "boom" false, StreamEvent.doneEv none] ∧
    (runStages
        ([] ++ ⟨[StreamEvent.toolCallStart ToolType.search_documents
                    "search_documents" "searching"], some "boom"⟩ ::
          [⟨[StreamEvent.doneEv none], none⟩])).countP isErrorEv = 1 ∧
    (runStages
        ([] ++ ⟨[StreamEvent.toolCallStart ToolType.search_documents
                    "search_documents" "searching"], some "boom"⟩ ::
          [⟨[StreamEvent.doneEv none], none⟩])).getLast?
      = some (StreamEvent.doneEv none) :=
  claimC7_error_path []
    ⟨[StreamEvent.toolCallStart ToolType.search_documents
        "search_documents" "searching"], some "boom"⟩
    [⟨[StreamEvent.doneEv none], none⟩] "boom"
    (by decide) (by decide) (by decide) (by decide)

/-- The citation-building loop, over an arbitrary token list: the ids of
the built citations are exactly the in-range integer values of the
tokens, in order. -/
theorem citeLoop_map_id (docs : List (String × Nat × String)) :
    ∀ L : List String,
      ((L.filterMap (citeOf docs)).map Citation.id)
      = (L.map (fun s => digitsVal s)).filter
          (fun k => decide (1 ≤ k ∧ k ≤ docs.length)) := by
  intro L
  induction L with
  | nil => rfl
  | cons s rest ih =>
    by_cases h : 1 ≤ digitsVal s ∧ digitsVal s ≤ docs.length
    · have hlt : digitsVal s - 1 < docs.length := by omega
      obtain ⟨sec, hget⟩ : ∃ sec, docs.get? (digitsVal s - 1) = some sec :=
        ⟨docs.get ⟨_, hlt⟩, List.get?_eq_get hlt⟩
      have hhead : citeOf docs s
          = some (create_citation (digitsVal s) sec.1 sec.2.1
              (sec.2.2.take 150)) := by
        simp only [citeOf, if_pos h, hget]
      rw [List.filterMap_cons_some hhead, List.map_cons, ih,
        List.map_cons, List.filter_cons, if_pos (by simpa using h)]
      rfl
    · have hhead : citeOf docs s = none := by
        simp only [citeOf, if_neg h]
      rw [List.filterMap_cons_none hhead, ih, List.map_cons,
        List.filter_cons, if_neg (by simpa using h)]

/-- C5 counterexample: on the text "[1 01]" with 3 retrieved sections,
no integer appears inside a bracketed digits/commas group in the
claim's sense (the group here contains a space), yet the code emits two
Citation events, both for source 1 — the bracket regex also admits
whitespace, and deduplication is by digit string, so "1" and "01" each
produce an event. -/
theorem claimC5_counterexample :
    claimCitedInts "[1 01]" 3 = [] ∧
    (synthCitations "[1 01]"
        [("a.pdf", 1, "ta"), ("b.pdf", 2, "tb"), ("c.pdf", 3, "tc")]).map
      Citation.id = [1, 1] := by decide

/-- C5 (amended): the synthesis stage emits one Citation event per
distinct digit token found inside a bracketed run of digits, commas and
whitespace whose integer value k is within [1, n]; each citation is
built exactly from the k-th retrieved section (1-indexed); out-of-range
values produce nothing.  In particular, markers [1] and [7] with 3
sections emit only citation 1. -/
theorem claimC5_citation_bounds :
    ∀ (text : String) (docs : List (String × Nat × String)),
      ((synthCitations text docs).map Citation.id
        = ((dedupFirst (citedTokens text)).map (fun s => digitsVal s)).filter
            (fun k => decide (1 ≤ k ∧ k ≤ docs.length))) ∧
      (∀ c ∈ synthCitations text docs,
        1 ≤ c.id ∧ c.id ≤ docs.length ∧
        ∃ s, docs.get? (c.id - 1) = some s ∧
          c = create_citation c.id s.1 s.2.1 (s.2.2.take 150)) ∧
      ((synthCitations "The answer is in [1], not [7]."
          [("a.pdf", 1, "ta"), ("b.pdf", 2, "tb"), ("c.pdf", 3, "tc")]).map
        Citation.id = [1]) := by
  intro text docs
  refine ⟨citeLoop_map_id docs _, ?_, by decide⟩
  intro c hc
  obtain ⟨tok, htok, hf⟩ := List.mem_filterMap.mp hc
  by_cases h : 1 ≤ digitsVal tok ∧ digitsVal tok ≤ docs.length
  · have hlt : digitsVal tok - 1 < docs.length := by omega
    obtain ⟨sec, hget⟩ : ∃ sec, docs.get? (digitsVal tok - 1) = some sec :=
      ⟨docs.get ⟨_, hlt⟩, List.get?_eq_get hlt⟩
    have hget' : docs[digitsVal tok - 1]? = some sec := by
      rw [← List.get?_eq_getElem?]
      exact hget
    have hc2 : create_citation (digitsVal tok) sec.1 sec.2.1
        (sec.2.2.take 150) = c := by
      simpa [citeOf, h, hget'] using hf
    subst hc2
    refine ⟨by simpa [create_citation] using h.1,
            by simpa [create_citation] using h.2,
            sec, by simpa [create_citation] using hget, ?_⟩
    simp [create_citation]
  · exfalso
    simp [citeOf, h] at hf

/-- `addPage` never empties the accumulator. -/
theorem addPage_ne_nil : ∀ (acc : List (String × List Nat)) (f : String)
    (p : Nat), addPage acc f p ≠ [] := by
  intro acc f p
  match acc with
  | [] => simp [addPage]
  | (g, ps) :: rest => by_cases h : g = f <;> simp [addPage, h]

theorem foldl_addPage_ne_nil :
    ∀ (ds : List (String × Nat × String)) (acc : List (String × List Nat)),
      acc ≠ [] → ds.foldl (fun a d => addPage a d.1 d.2.1) acc ≠ [] := by
  intro ds
  induction ds with
  | nil => intro acc h; simpa using h
  | cons d rest ih =>
    intro acc _
    simp only [List.foldl_cons]
    exact ih _ (addPage_ne_nil acc d.1 d.2.1)

/-- The keys of `addPage` evolve exactly like first-occurrence
deduplication. -/
theorem addPage_fst :
    ∀ (acc : List (String × List Nat)) (f : String) (p : Nat),
      (addPage acc f p).map Prod.fst
        = (if f ∈ acc.map Prod.fst then acc.map Prod.fst
           else acc.map Prod.fst ++ [f]) := by
  intro acc f p
  induction acc with
  | nil => simp [addPage]
  | cons a rest ih =>
    obtain ⟨g, ps⟩ := a
    by_cases hgf : g = f
    · subst hgf
      simp [addPage]
    · by_cases hmem : f ∈ rest.map Prod.fst <;>
        simp [addPage, hgf, ih, hmem, Ne.symm hgf]

/-- The keys of `unique_docs`, built over any seed, are the
first-occurrence deduplication of the section filenames. -/
theorem uniq_fst :
    ∀ (docs : List (String × Nat × String)) (acc : List (String × List Nat)),
      ((docs.foldl (fun a d => addPage a d.1 d.2.1) acc).map Prod.fst)
        = (docs.map (fun d => d.1)).foldl
            (fun a s => if s ∈ a then a else a ++ [s]) (acc.map Prod.fst) := by
  intro docs
  induction docs with
  | nil => intro acc; rfl
  | cons d ds ih =>
    intro acc
    simp only [List.foldl_cons, List.map_cons]
    rw [ih, addPage_fst]

/-- C8 counterexample: two retrieved sections from the same single
document — one distinct document, yet the sources Table block is
emitted, because the gate is `len(documents) >= 2` over sections, not
over distinct documents. -/
theorem claimC8_counterexample :
    (generate_ui_blocks_node [("a.pdf", 1, "x"), ("a.pdf", 2, "y")]).isSome
        = true ∧
    (dedupFirst ([("a.pdf", 1, "x"), ("a.pdf", 2, "y")].map
        (fun d => d.1))).length = 1 := by decide

/-- C8 (amended): the Generate UI stage emits a sources Table block iff
at least 2 retrieved *sections* exist (regardless of how many distinct
documents they span); when emitted, the table has one row per distinct
document (in first-appearance order), each row showing the document and
its `pagesCell` — up to 3 sorted distinct referenced pages plus an
overflow count when a document has more than 3. -/
theorem claimC8_sources_table :
    ∀ docs : List (String × Nat × String),
      ((generate_ui_blocks_node docs).isSome = true ↔ 2 ≤ docs.length) ∧
      (∀ t, generate_ui_blocks_node docs = some t →
        t.headers = ["Document", "Relevant Pages"] ∧
        t.caption = some "Sources referenced in this response" ∧
        t.rows = (uniqueDocs docs).map (fun fp => [fp.1, pagesCell fp.2]) ∧
        t.rows.length = (dedupFirst (docs.map (fun d => d.1))).length) := by
  intro docs
  have hfst : (uniqueDocs docs).map Prod.fst
      = dedupFirst (docs.map (fun d => d.1)) := by
    have h := uniq_fst docs []
    simpa [uniqueDocs, dedupFirst] using h
  constructor
  · constructor
    · intro hs
      by_contra hlen
      simp [generate_ui_blocks_node, hlen] at hs
    · intro hlen
      have hne : docs ≠ [] := by
        intro h
        rw [h] at hlen
        simp at hlen
      obtain ⟨d, ds, rfl⟩ := List.exists_cons_of_ne_nil hne
      have huniq : uniqueDocs (d :: ds) ≠ [] := by
        simp only [uniqueDocs, List.foldl_cons]
        exact foldl_addPage_ne_nil ds _ (addPage_ne_nil [] d.1 d.2.1)
      have hrows : (uniqueDocs (d :: ds)).map
          (fun fp => [fp.1, pagesCell fp.2]) ≠ [] := by
        simpa using huniq
      simp only [List.length_cons] at hlen
      simp [generate_ui_blocks_node, hlen, hrows]
  · intro t ht
    by_cases hlen : 2 ≤ docs.length
    · rw [generate_ui_blocks_node, if_pos hlen] at ht
      have ht' : (if ((uniqueDocs docs).map
            (fun fp => [fp.1, pagesCell fp.2])) ≠ [] then
          some (⟨["Document", "Relevant Pages"],
            (uniqueDocs docs).map (fun fp => [fp.1, pagesCell fp.2]),
            some "Sources referenced in this response"⟩ : TableData)
        else none) = some t := ht
      split at ht'
      · obtain rfl := Option.some_inj.mp ht'
        refine ⟨rfl, rfl, rfl, ?_⟩
        have : ((uniqueDocs docs).map
            (fun fp => [fp.1, pagesCell fp.2])).length
            = ((uniqueDocs docs).map Prod.fst).length := by
          simp
        rw [this, hfst]
      · cases ht'
    · rw [generate_ui_blocks_node, if_neg hlen] at ht
      cases ht

/-- Every chunking iteration moves `end` past the midpoint: the
sentence-boundary cut is only taken at an index strictly beyond
`chunk_size / 2`. -/
theorem chunkNext_lb (text : List Char) (cs start : Nat) (h1 : 1 ≤ cs) :
    start + cs / 2 + 1 ≤ chunkNext text cs start := by
  unfold chunkNext
  split
  · split
    · split <;> omega
    · omega
  · omega

/-- A budget of `text.length` iterations past any start suffices for the
chunking loop when `chunk_size ≥ 1` and `overlap ≤ chunk_size / 2`. -/
theorem chunkLoop_isSome (text : List Char) (cs ov pn : Nat)
    (h1 : 1 ≤ cs) (h2 : ov ≤ cs / 2) :
    ∀ (fuel start : Nat), text.length ≤ start + fuel →
      (chunkLoop text cs ov pn fuel start).isSome = true := by
  intro fuel
  induction fuel with
  | zero =>
    intro start hle
    have h : ¬ start < text.length := by omega
    simp [chunkLoop, h]
  | succ n ih =>
    intro start hle
    by_cases hstart : start < text.length
    · have hnext := chunkNext_lb text cs start h1
      have hrec := ih (chunkNext text cs start - ov) (by omega)
      obtain ⟨r, hr⟩ := Option.isSome_iff_exists.mp hrec
      simp [chunkLoop, hstart, hr]
    · simp [chunkLoop, hstart]

theorem docChunks_isSome (cs ov : Nat) (h1 : 1 ≤ cs) (h2 : ov ≤ cs / 2) :
    ∀ ps : List (Nat × String), (docChunks cs ov ps).isSome = true := by
  intro ps
  induction ps with
  | nil => rfl
  | cons pt rest ih =>
    obtain ⟨pn, text⟩ := pt
    by_cases htext : text = ""
    · simpa [docChunks, htext] using ih
    · have hpage := chunkLoop_isSome text.data cs ov pn h1 h2
        (text.data.length + 1) 0 (by omega)
      obtain ⟨c, hc⟩ := Option.isSome_iff_exists.mp hpage
      obtain ⟨r, hr⟩ := Option.isSome_iff_exists.mp ih
      have hc' : chunkLoop text.data cs ov pn (text.length + 1) 0 = some c := hc
      simp [docChunks, htext, pageChunks, hc, hc', hr]

/-- The loop started with `chunk_size = 0` (admitted by the claim's
parameter range, since `overlap ≤ 0 / 2` forces `overlap = 0`) never
advances: every iteration budget is exhausted. -/
theorem chunkLoop_zero_stuck :
    ∀ fuel, chunkLoop "a".data 0 0 1 fuel 0 = none := by
  intro fuel
  induction fuel with
  | zero => decide
  | succ n ih =>
    have h01 : (0 : Nat) < ("a".data).length := by decide
    have hnext : chunkNext "a".data 0 0 = 0 := by decide
    simp [chunkLoop, h01, hnext, ih]

/-- C10 counterexample: with `chunk_size = 0`, `overlap = 0` — which the
claim's range `overlap ≥ 0 ∧ overlap ≤ chunk_size / 2` admits — the
while-loop of `get_semantic_chunks` never advances `start` on any
nonempty page text, so it does not terminate: no iteration budget
completes it. -/
theorem claimC10_counterexample :
    (0 : Nat) ≤ 0 / 2 ∧
    get_semantic_chunks [⟨"a.pdf", ["a"]⟩] "a.pdf" 0 0 = none ∧
    ¬ ∃ fuel, (chunkLoop "a".data 0 0 1 fuel 0).isSome = true := by
  refine ⟨by decide, by decide, ?_⟩
  rintro ⟨fuel, hf⟩
  rw [chunkLoop_zero_stuck fuel] at hf
  cases hf

/-- C10 (amended): for `chunk_size ≥ 1` and `overlap ≤ chunk_size / 2`,
`get_semantic_chunks` terminates: each iteration advances the chunk
start by strictly more than `chunk_size / 2 − overlap ≥ 0` (the
sentence-boundary cut is only taken past the midpoint), so an iteration
budget of the page text's length plus one completes every page. -/
theorem claimC10_chunk_termination (text : List Char) (cs ov pn : Nat)
    (h1 : 1 ≤ cs) (h2 : ov ≤ cs / 2) :
    ((∀ start, start < text.length →
        start + (cs / 2 - ov) + 1 ≤ chunkNext text cs start - ov) ∧
     (chunkLoop text cs ov pn (text.length + 1) 0).isSome = true) ∧
    (∀ (corpus : List PdfDoc) (filename : String),
      (get_semantic_chunks corpus filename cs ov).isSome = true) := by
  refine ⟨⟨?_, ?_⟩, ?_⟩
  · intro start hstart
    have := chunkNext_lb text cs start h1
    omega
  · exact chunkLoop_isSome text cs ov pn h1 h2 (text.length + 1) 0 (by omega)
  · intro corpus filename
    cases hdoc : extract_document corpus filename with
    | none => simp [get_semantic_chunks, hdoc]
    | some d => simp [get_semantic_chunks, hdoc, docChunks_isSome cs ov h1 h2]

/-- Witness for C10 (amended), at chunk_size 2, overlap 1 on a 3-char
page. -/
theorem claimC10_chunk_termination_witness :
    1 ≤ 2 ∧ 1 ≤ 2 / 2 ∧
    (((∀ start, start < (['a', 'b', 'c'] : List Char).length →
        start + (2 / 2 - 1) + 1 ≤ chunkNext ['a', 'b', 'c'] 2 start - 1) ∧
      (chunkLoop ['a', 'b', 'c'] 2 1 1
          ((['a', 'b', 'c'] : List Char).length + 1) 0).isSome = true) ∧
     (∀ (corpus : List PdfDoc) (filename : String),
        (get_semantic_chunks corpus filename 2 1).isSome = true)) :=
  ⟨by decide, by decide,
   claimC10_chunk_termination ['a', 'b', 'c'] 2 1 1 (by decide) (by decide)⟩

theorem search_text_nil (corpus : List PdfDoc) (q : String) (m : Nat)
    (h : list_pdfs corpus = []) : search_text corpus q m = [] := by
  simp [search_text, h]

theorem phase1_nil (corpus : List PdfDoc) (query : String)
    (h : list_pdfs corpus = []) : phase1 corpus query = [] := by
  have hstep : ∀ (ks : List String) (acc : List (String × Nat × String)),
      ks.foldl (fun acc kw =>
        (search_text corpus kw 3).foldl
          (fun acc2 r =>
            if acc2.any (fun s => s.1 == r.1 && s.2.1 == r.2.1) then acc2
            else acc2 ++ [(r.1, r.2.1, r.2.2.1)])
          acc) acc = acc := by
    intro ks
    induction ks with
    | nil => intro acc; rfl
    | cons k rest ih =>
      intro acc
      simp only [List.foldl_cons]
      rw [search_text_nil corpus k 3 h]
      exact ih acc
  exact hstep (keywords query) []

/-- C6 counterexample: one known document whose only page has no
extractable text.  Keyword search and filename matching find nothing,
chunking yields nothing and the first-page fallback is dropped because
the text is empty — so retrieval returns the empty list even though a
document is known, and the "no documents" block is emitted although a
document exists. -/
theorem claimC6_counterexample :
    list_pdfs [⟨"a.pdf", [""]⟩] ≠ [] ∧
    (search_documents_node [⟨"a.pdf", [""]⟩] "hello").1 = [] ∧
    (search_documents_node [⟨"a.pdf", [""]⟩] "hello").2
      = ⟨UIBlockType.info_card,
         UIBlockData.infoCard
           ⟨"📭 No Documents",
            "No PDF documents found. Please upload documents first.",
            some "⚠️"⟩⟩ := by decide

/-- C6 (amended): the retrieval node tries its three phases in order,
each later phase only when every earlier phase produced nothing; when
keyword search and filename matching produce nothing and at least one
known document yields a nonempty chunk among its first three semantic
chunks or has a nonempty first page, the result is non-empty; and when
zero documents are known the result is the empty list and the
informational "no documents" block is emitted (that block is tied to an
empty section list, not to an empty corpus — see the counterexample). -/
theorem claimC6_fallback_ladder :
    ∀ (corpus : List PdfDoc) (query : String),
      ((phase1 corpus query ≠ [] →
          (search_documents_node corpus query).1 = phase1 corpus query) ∧
       (phase1 corpus query = [] → phase2 corpus query ≠ [] →
          (search_documents_node corpus query).1 = phase2 corpus query) ∧
       (phase1 corpus query = [] → phase2 corpus query = [] →
          (search_documents_node corpus query).1 = phase3 corpus)) ∧
      (phase1 corpus query = [] → phase2 corpus query = [] →
        (∃ pdf ∈ list_pdfs corpus,
          chunkSel corpus pdf ≠ [] ∨ firstPageSel corpus pdf ≠ []) →
        (search_documents_node corpus query).1 ≠ []) ∧
      (list_pdfs corpus = [] →
        (search_documents_node corpus query).1 = [] ∧
        (search_documents_node corpus query).2
          = ⟨UIBlockType.info_card,
             UIBlockData.infoCard
               ⟨"📭 No Documents",
                "No PDF documents found. Please upload documents first.",
                some "⚠️"⟩⟩) := by
  intro corpus query
  refine ⟨⟨?_, ?_, ?_⟩, ?_, ?_⟩
  · intro h1
    simp [search_documents_node, h1]
  · intro h1 h2
    simp [search_documents_node, h1, h2]
  · intro h1 h2
    simp [search_documents_node, h1, h2]
  · intro h1 h2 hex
    obtain ⟨pdf, hpdf, hsel⟩ := hex
    have hnode : (search_documents_node corpus query).1 = phase3 corpus := by
      simp [search_documents_node, h1, h2]
    rw [hnode]
    by_cases hvc : ((list_pdfs corpus).map (chunkSel corpus)).flatten = []
    · have hp3 : phase3 corpus
          = ((list_pdfs corpus).map (firstPageSel corpus)).flatten := by
        simp [phase3, hvc]
      have hcsel : chunkSel corpus pdf = [] :=
        List.flatten_eq_nil_iff.mp hvc _
          (List.mem_map_of_mem (chunkSel corpus) hpdf)
      have hfp : firstPageSel corpus pdf ≠ [] := by
        rcases hsel with hc | hf
        · exact absurd hcsel hc
        · exact hf
      rw [hp3]
      intro hflat
      exact hfp (List.flatten_eq_nil_iff.mp hflat _
        (List.mem_map_of_mem (firstPageSel corpus) hpdf))
    · have hp3 : phase3 corpus
          = ((list_pdfs corpus).map (chunkSel corpus)).flatten := by
        simp [phase3, hvc]
      rw [hp3]
      exact hvc
  · intro h
    have hp1 := phase1_nil corpus query h
    have hp2 : phase2 corpus query = [] := by simp [phase2, h]
    have hp3 : phase3 corpus = [] := by simp [phase3, h]
    constructor
    · simp [search_documents_node, hp1, hp2, hp3]
    · simp [search_documents_node, searchInfoBlock, hp1, hp2, hp3]

end DocSense
